import Mathlib

/-!
Verification development for bashistdb: a shallow embedding of the history
store (package database) and the network layer (package network), with
theorems about the claims on import, migration, the envelope codec, and the
request/reply handlers.

Bytes read from the wire or from a history buffer are modelled as `List Char`
(one `Char` per byte); database state is modelled as explicit values threaded
through the operations; SQL transactions become all-or-nothing results.
-/

/-! ## Data model: wire messages (network.go) -/

/-- Message type constant from network.go. -/
def RESULT : String := "result"

/-- Message type constant from network.go. -/
def HISTORY : String := "history"

/-- Message type constant from network.go. -/
def STATS : String := "stats"

/-- Message type constant from network.go. -/
def QUERY : String := "query"

/-- Modelled from the spec: `conf.QueryParams` lives in the configuration
package, which is not under src/. Per spec section 3 it is the structured
filter for QUERY/STATS: user/host/command wildcard patterns, a row limit
(named `Kappa` at the call sites in network.go) and a format. -/
structure QueryParams where
  user : String
  host : String
  command : String
  format : String
  kappa : Nat
deriving DecidableEq

/-- The unit of wire exchange (struct `Message` in network.go). The Go field
`Type` is rendered as `type` because `Type` is reserved in Lean. -/
structure Message where
  type : String
  payload : List Char
  user : String
  hostname : String
  qParams : QueryParams
deriving DecidableEq

/-- The zero value of `conf.QueryParams` (Go zero value of the struct). -/
def qpZero : QueryParams := { user := "", host := "", command := "", format := "", kappa := 0 }

/-! ## Timestamps (database.go: RFC3339alt and time.Parse) -/

/-- Golang's RFC3339 does not comply with all RFC3339 representations
(constant `RFC3339alt` in database.go). -/
def RFC3339alt : String := "2006-01-02T15:04:05-0700"

/-- A parsed wall-clock time with its timezone offset, as produced by Go's
`time.Parse` with the `RFC3339alt` layout. The sqlite3 driver stores such a
value with its offset, so field-wise equality models equality of the stored
`datetime` column. -/
structure Timestamp where
  year : Nat
  month : Nat
  day : Nat
  hour : Nat
  minute : Nat
  second : Nat
  zoneNeg : Bool
  zoneHour : Nat
  zoneMin : Nat
deriving DecidableEq

/-- Numeric value of a decimal digit character. -/
def digitVal (c : Char) : Nat := c.toNat - 48

/-- Two-digit decimal field. -/
def twoDig (a b : Char) : Nat := 10 * digitVal a + digitVal b

/-- Gregorian leap-year rule used by Go's `time` package. -/
def isLeapYear (y : Nat) : Bool := (y % 4 == 0 && y % 100 != 0) || y % 400 == 0

/-- Number of days in a month, as Go's `time.daysIn`. -/
def daysIn (month year : Nat) : Nat :=
  if month = 2 then (if isLeapYear year then 29 else 28)
  else if month = 4 ∨ month = 6 ∨ month = 9 ∨ month = 11 then 30
  else 31

/-- `time.Parse(RFC3339alt, s)` on a 24-character field: the layout
`2006-01-02T15:04:05-0700` demands the exact shape
`YYYY-MM-DDTHH:MM:SS(+|-)hhmm` (a 24-character input leaves no room for the
one-digit hour that `15` would also accept, since trailing unconsumed text is
an error), and the parsed fields are range-checked: month 1..12, day within
the month, hour at most 23, minute and second at most 59. The zone offset
digits are not range-checked. Failure is `none`. -/
def timeParse (ts : List Char) : Option Timestamp :=
  match ts with
  | [y1, y2, y3, y4, a1, mo1, mo2, a2, d1, d2, a3, h1, h2,
     a4, mi1, mi2, a5, s1, s2, zs, z1, z2, z3, z4] =>
    if a1 = '-' ∧ a2 = '-' ∧ a3 = 'T' ∧ a4 = ':' ∧ a5 = ':' ∧ (zs = '+' ∨ zs = '-')
        ∧ [y1, y2, y3, y4, mo1, mo2, d1, d2, h1, h2, mi1, mi2, s1, s2,
           z1, z2, z3, z4].all Char.isDigit = true then
      let year := 1000 * digitVal y1 + 100 * digitVal y2 + 10 * digitVal y3 + digitVal y4
      let month := twoDig mo1 mo2
      let day := twoDig d1 d2
      let hour := twoDig h1 h2
      let minute := twoDig mi1 mi2
      let second := twoDig s1 s2
      if 1 ≤ month ∧ month ≤ 12 ∧ 1 ≤ day ∧ day ≤ daysIn month year
          ∧ hour ≤ 23 ∧ minute ≤ 59 ∧ second ≤ 59 then
        some { year := year, month := month, day := day, hour := hour,
               minute := minute, second := second, zoneNeg := decide (zs = '-'),
               zoneHour := twoDig z1 z2, zoneMin := twoDig z3 z4 }
      else none
    else none
  | _ => none

/-! ## The history line pattern (database.go: AddFromBuffer's regexp)

The source compiles the anchored pattern (with 24 written as a bounded repeat)
`^ *[0-9]+\*? *([0-9T:+-]24) *(.*)` and takes submatches 1 (timestamp field)
and 2 (command). Go's regexp uses leftmost-first (greedy, earlier element
priority) submatch semantics; the functions below implement exactly that
search for this fixed pattern. Space runs are deterministic because a space
belongs to none of the adjacent character classes; the only backtracking
point is how many digits `[0-9]+` keeps, tried greedily from the longest. -/

/-- Maximal run of spaces, as each ` *` in the pattern consumes. -/
def dropSpaces (l : List Char) : List Char := l.dropWhile (fun c => c = ' ')

/-- Character class `[0-9T:+-]` of the timestamp field. -/
def isTsChar (c : Char) : Bool := c.isDigit || c = 'T' || c = ':' || c = '+' || c = '-'

/-- The pattern tail after the line-number digits: an optional `*` (if the
next character is `*`, consuming it is the only branch that can match, since
`*` is neither a space nor a timestamp character), a space run, exactly 24
characters of `[0-9T:+-]` (submatch 1), a space run, and `(.*)` which runs
greedily up to the newline (submatch 2). -/
def afterLinenum (l : List Char) : Option (List Char × List Char) :=
  let l1 := match l with
    | '*' :: tl => tl
    | _ => l
  let l2 := dropSpaces l1
  let ts := l2.take 24
  if ts.length == 24 && ts.all isTsChar then
    let l3 := dropSpaces (l2.drop 24)
    some (ts, l3.takeWhile (fun c => c ≠ '\n'))
  else none

/-- Greedy choice for `[0-9]+`: try keeping `n` digits, then fewer. -/
def tryDigits : Nat → List Char → Option (List Char × List Char)
  | 0, _ => none
  | n + 1, l =>
    match afterLinenum (l.drop (n + 1)) with
    | some r => some r
    | none => tryDigits n l

/-- `parseLine.FindStringSubmatch` for the fixed pattern, reduced to its two
submatches: `none` when the line does not match (the `len(args) != 3` branch),
`some (timestampField, command)` otherwise. -/
def parseLine (line : List Char) : Option (List Char × List Char) :=
  let l := dropSpaces line
  tryDigits (l.takeWhile Char.isDigit).length l

/-! ## History table and idempotent insert (database.go) -/

/-- One row of the `history` table. -/
structure HistoryRow where
  user : String
  host : String
  command : String
  datetime : Timestamp
deriving DecidableEq

/-- The `history` table in insertion order. -/
abbrev HistoryDB := List HistoryRow

/-- The PRIMARY KEY of `history` is (user, command, datetime). -/
abbrev samePK (a b : HistoryRow) : Prop :=
  a.user = b.user ∧ a.command = b.command ∧ a.datetime = b.datetime

/-- Executing the prepared INSERT on the `history` table: a row whose primary
key already exists raises `sqlite3.ErrConstraintPrimaryKey` (modelled as the
`true` flag, the duplicate outcome); otherwise the row is appended. -/
def insertRow (db : HistoryDB) (r : HistoryRow) : HistoryDB × Bool :=
  if ∃ x ∈ db, samePK x r then (db, true) else (db ++ [r], false)

/-! ## The import loop (database.go: AddFromBuffer) -/

/-- `bufio.Reader.ReadString('\n')`: returns the bytes up to and including the
first newline together with `some rest`, or on end of input the remaining
bytes (possibly empty) together with `none`, which models `err == io.EOF`. -/
def readLine : List Char → List Char × Option (List Char)
  | [] => ([], none)
  | c :: s =>
    if c = '\n' then ([c], some s)
    else (c :: (readLine s).1, (readLine s).2)

/-- Decomposition of a byte stream into its newline-terminated lines (each
including its newline) and the trailing unterminated fragment. -/
def splitNL : List Char → List (List Char) × List Char
  | [] => ([], [])
  | c :: s =>
    if c = '\n' then ([c] :: (splitNL s).1, (splitNL s).2)
    else
      match (splitNL s).1 with
      | [] => ([], c :: (splitNL s).2)
      | l :: ls2 => ((c :: l) :: ls2, (splitNL s).2)

/-- The newline-terminated lines of a stream. -/
def linesOf (s : List Char) : List (List Char) := (splitNL s).1

/-- Number of newline characters, i.e. of newline-terminated lines. -/
def countNL : List Char → Nat
  | [] => 0
  | c :: s => (if c = '\n' then 1 else 0) + countNL s

/-- `strings.TrimSuffix(s, "\n")`: drop one trailing newline if present. -/
def trimSuffixNL (l : List Char) : List Char :=
  match l.getLast? with
  | some '\n' => l.dropLast
  | _ => l

/-- The per-line body of AddFromBuffer's loop, after the `total++`/EOF
bookkeeping: a line that does not match the pattern only counts as failed; a
matching line whose timestamp does not parse aborts the whole import (the
error value); otherwise the record is inserted, with a duplicate primary key
counted as failed but tolerated. -/
def lineStep (u h : String) (db : HistoryDB) (failed : Nat) (line : List Char) :
    Except String (HistoryDB × Nat) :=
  match parseLine line with
  | none => Except.ok (db, failed + 1)
  | some (ts, cmd) =>
    match timeParse ts with
    | none => Except.error ("parsing time " ++ String.mk ts)
    | some t =>
      let r : HistoryRow := { user := u, host := h,
                              command := String.mk (trimSuffixNL cmd), datetime := t }
      Except.ok ((insertRow db r).1, if (insertRow db r).2 then failed + 1 else failed)

/-- AddFromBuffer's `for` loop, reading with `readLine` exactly as the source
reads with `ReadString`: `total` is incremented on every read, including the
final one that hits end of input, whose partial data is discarded by the
`break`. The `fuel` argument only bounds the recursion; it is in excess of
the input length at every call. -/
def addLoop (u h : String) : Nat → List Char → HistoryDB → Nat → Nat →
    Except String (HistoryDB × Nat × Nat)
  | 0, _, _, _, _ => Except.error "out of fuel"
  | fuel + 1, s, db, total, failed =>
    match readLine s with
    | (_, none) => Except.ok (db, total + 1, failed)
    | (line, some rest) =>
      match lineStep u h db failed line with
      | Except.error e => Except.error e
      | Except.ok (db2, f2) => addLoop u h fuel rest db2 (total + 1) f2

/-- The same loop expressed over the list of newline-terminated lines; the
bridge lemma below proves it equal to `addLoop`. -/
def processLines (u h : String) : List (List Char) → HistoryDB → Nat → Nat →
    Except String (HistoryDB × Nat × Nat)
  | [], db, total, failed => Except.ok (db, total + 1, failed)
  | l :: ls, db, total, failed =>
    match lineStep u h db failed l with
    | Except.error e => Except.error e
    | Except.ok (db2, f2) => processLines u h ls db2 (total + 1) f2

/-- The summary sentence built by AddFromBuffer. -/
def statsString (total failed : Nat) : String :=
  "Processed " ++ toString total ++ " entries, successful " ++ toString (total - failed)
    ++ ", failed " ++ toString failed ++ "."

/-- `Database.AddFromBuffer(r, user, host)`: runs the read loop inside one
transaction. On a timestamp invariant violation the transaction is rolled
back, so the returned table is the argument table unchanged and the result is
the error; otherwise the transaction commits, `total` is decremented to
cancel the count of the final end-of-input read, and the stats sentence is
returned together with the new table. -/
def AddFromBuffer (db : HistoryDB) (input : List Char) (u h : String) :
    Except String String × HistoryDB :=
  match addLoop u h (input.length + 1) input db 0 0 with
  | Except.error e => (Except.error e, db)
  | Except.ok (db2, total, failed) => (Except.ok (statsString (total - 1) failed), db2)

/-! ## Schema version, `connections` views and migration (database.go) -/

/-- VERSION is the database's schema supported version. -/
def VERSION : String := "2"

/-- Which JOIN the `connections` view was created with: `initDB` uses a plain
(inner) JOIN, the version-1 migration step uses a LEFT JOIN. -/
inductive JoinKind
  | inner
  | left
deriving DecidableEq

/-- A row of `connlog`: (datetime primary key, remote). -/
abbrev ConnRow := String × String

/-- A row of the `connections` view: (datetime, remote, reverse), where the
reverse name is NULL when it comes from no `rlookup` row. -/
abbrev ViewRow := String × String × Option String

/-- The state of a bashistdb sqlite file, restricted to what migration reads
and writes: the `admin` version record (`none` when absent), `connlog`,
`rlookup`, and which `connections` view exists (`none` when the view was
never created, as in a version-1 database). -/
structure Store where
  version : Option String
  connlog : List ConnRow
  rlookup : List ConnRow
  viewJoin : Option JoinKind
deriving DecidableEq

/-- The rows of `rlookup` matching one `connlog` row, projected to view rows:
`... JOIN rlookup AS r ON c.remote = r.ip`. -/
def matchesFor (rl : List ConnRow) (c : ConnRow) : List ViewRow :=
  (rl.filter (fun r => r.1 == c.2)).map (fun r => (c.1, c.2, some r.2))

/-- The `connections` view as created by `initDB`:
`SELECT datetime, remote, reverse FROM connlog AS c JOIN rlookup AS r ON
c.remote=r.ip` — an inner join, emitting one row per matching pair. -/
def innerJoinView (cl rl : List ConnRow) : List ViewRow :=
  (cl.map (matchesFor rl)).flatten

/-- The `connections` view as created by `migrate`:
`SELECT datetime, remote, reverse FROM connlog AS c LEFT JOIN rlookup AS r ON
c.remote = r.ip` — every `connlog` row appears; one with no `rlookup` match
appears once with NULL reverse. -/
def leftJoinView (cl rl : List ConnRow) : List ViewRow :=
  (cl.map (fun c =>
    let ms := matchesFor rl c
    if ms.isEmpty then [(c.1, c.2, none)] else ms)).flatten

/-- Contents of the `connections` view of a store (empty when the view does
not exist). -/
def connectionsView (s : Store) : List ViewRow :=
  match s.viewJoin with
  | some JoinKind.inner => innerJoinView s.connlog s.rlookup
  | some JoinKind.left => leftJoinView s.connlog s.rlookup
  | none => []

/-- `initDB` as it leaves a fresh store: empty tables, the inner-join
`connections` view, and the version record set to `VERSION`. -/
def initDB : Store :=
  { version := some VERSION, connlog := [], rlookup := [], viewJoin := some JoinKind.inner }

/-- `migrate(d)`: read the version record (absent means the `QueryRow.Scan`
error). On version "1", one transaction recreates `connlog` preserving its
(datetime, remote) rows, creates an empty `rlookup`, creates the LEFT JOIN
`connections` view and updates the version record to `VERSION`; the
transaction commits as a whole, so the model returns either the fully
migrated store or, on any other version, an error leaving the store as it
was. Version "2" falls through the final check and is a no-op. -/
def migrate (s : Store) : Except String Store :=
  match s.version with
  | none => Except.error "sql: no rows in result set"
  | some version =>
    if version = "1" then
      Except.ok { version := some VERSION, connlog := s.connlog, rlookup := [],
                  viewJoin := some JoinKind.left }
    else if version ≠ VERSION then
      Except.error "Database version different than code version but couldn't fix it."
    else Except.ok s

/-! ## Envelope codec (network.go: encryptDispatch / receiveDecrypt)

The two gob codecs and the saltsecret cipher are external collaborators (the
Go standard library and github.com/andmarios/crypto); the spec treats them as
opaque, contracted by round-tripping. They enter the model as function
parameters; the definitions below keep exactly the layering of the source:
msg -> GOB -> ENCRYPT -> GOB -> wire, and the inverse chain in which any
layer's failure aborts the decode with no partial result. -/

/-- `encryptDispatch(conn, m)`: serialize the message (inner gob), encrypt
the serialized bytes under the pre-shared key, serialize the ciphertext
(outer gob) and write it to the wire. -/
def encryptDispatch (gobEncodeMsg : Message → List Nat)
    (encrypt : List Nat → List Nat → List Nat)
    (gobEncodeBytes : List Nat → List Nat)
    (key : List Nat) (m : Message) : List Nat :=
  gobEncodeBytes (encrypt key (gobEncodeMsg m))

/-- `receiveDecrypt(conn)`: decode the outer gob frame to the ciphertext,
decrypt it under the key, decode the inner gob to a Message; each layer can
fail, and a failure propagates with no partial decode. -/
def receiveDecrypt (gobDecodeBytes : List Nat → Option (List Nat))
    (decrypt : List Nat → List Nat → Option (List Nat))
    (gobDecodeMsg : List Nat → Option Message)
    (key : List Nat) (wire : List Nat) : Option Message :=
  match gobDecodeBytes wire with
  | none => none
  | some encMsg =>
    match decrypt key encMsg with
    | none => none
    | some plain => gobDecodeMsg plain

/-! ## The server's connection handler (network.go: handleConn) -/

/-- The store's query surface as invoked by the handler. `TopK`, `LastK` and
`RunQuery` taking QueryParams belong to a revision of the database package
that is not under src/ (the copy under src/ predates QueryParams), so the
handler is modelled over them abstractly; no claim depends on their values. -/
structure QueryOps where
  topK : QueryParams → List Char
  lastK : QueryParams → List Char
  runQuery : QueryParams → List Char

/-- The reply payload the STATS arm assembles locally: top-20 by frequency,
a blank line, then the 10 most recent. In the source this value is assigned
to a freshly declared `result` variable that shadows the enclosing one. -/
def statsReplyIntended (ops : QueryOps) : List Char :=
  ops.topK { user := "%", host := "%", command := "%", format := "", kappa := 20 }
    ++ "\n\n".data
    ++ ops.lastK { user := "%", host := "%", command := "%", format := "", kappa := 10 }

/-- `handleConn(conn)` given the outcome of `receiveDecrypt`: on a receive
error the handler logs and returns, sending nothing (the `none` reply) and
leaving the store untouched; otherwise it dispatches on the message type and
replies with one RESULT message built from the outer `result` variable.
In the STATS arm the source's `result := res1` declares a new variable that
shadows the outer `result` (modelled by the unused `_shadowed` binding), so
the outer one keeps its zero value and the reply payload is empty. An
unknown type also replies with the zero-valued payload. -/
def handleConn (ops : QueryOps) (db : HistoryDB) (recv : Except String Message) :
    Option Message × HistoryDB :=
  match recv with
  | Except.error _ => (none, db)
  | Except.ok msg =>
    let (result, db2) : List Char × HistoryDB :=
      if msg.type = HISTORY then
        match AddFromBuffer db msg.payload msg.user msg.hostname with
        | (Except.error e, dbE) => (e.data, dbE)
        | (Except.ok res, dbO) => (res.data, dbO)
      else if msg.type = STATS then
        let _shadowed := statsReplyIntended ops
        (([] : List Char), db)
      else if msg.type = QUERY then
        (ops.runQuery msg.qParams, db)
      else (([] : List Char), db)
    (some { type := RESULT, payload := result, user := "", hostname := "",
            qParams := qpZero }, db2)

/-! ## The client session (network.go: ClientMode) -/

/-- The reply rendering inside ClientMode's `switch reply.Type`: a RESULT
payload is printed; any other type matches no case and renders nothing. -/
def clientReplyRender (reply : Message) : Option String :=
  if reply.type = RESULT then some (String.mk reply.payload) else none

/-- ClientMode's handling of the received reply (the common tail of
the import, stats and query paths): a failed `receiveDecrypt` is returned as the
session's error; a successful one is rendered through the switch and
ClientMode then returns nil, i.e. the session completes without error whether
or not any case matched. -/
def clientReplyOutcome (recv : Except String Message) : Except String (Option String) :=
  match recv with
  | Except.error e => Except.error e
  | Except.ok reply => Except.ok (clientReplyRender reply)

/-! ## Concrete fixtures used by witnesses and counterexamples -/

/-- A concrete query surface whose stats queries return non-empty text. -/
def opsDemo : QueryOps :=
  { topK := fun _ => "Top-20 commands:\n42: ls".data,
    lastK := fun _ => "Last 10 commands:\n2015-03-01 ls".data,
    runQuery := fun _ => [] }

/-- A concrete import: 10 well-formed history lines and 3 lines that do not
match the pattern (at positions 3, 7 and 13). -/
def inp13 : List Char :=
  ("  1  2015-03-01T10:00:01+0000 cmd1\n"
    ++ "  2  2015-03-01T10:00:02+0000 cmd2\n"
    ++ "malformed line\n"
    ++ "  3  2015-03-01T10:00:03+0000 cmd3\n"
    ++ "  4  2015-03-01T10:00:04+0000 cmd4\n"
    ++ "  5  2015-03-01T10:00:05+0000 cmd5\n"
    ++ "  12 badtimestamp\n"
    ++ "  6  2015-03-01T10:00:06+0000 cmd6\n"
    ++ "  7  2015-03-01T10:00:07+0000 cmd7\n"
    ++ "  8  2015-03-01T10:00:08+0000 cmd8\n"
    ++ "  9  2015-03-01T10:00:09+0000 cmd9\n"
    ++ "  10 2015-03-01T10:00:10+0000 cmd10\n"
    ++ "#1422390 No\n").data

/-- The timestamp 2015-03-01T10:00:ss+0000. -/
def tsMar (ss : Nat) : Timestamp :=
  { year := 2015, month := 3, day := 1, hour := 10, minute := 0, second := ss,
    zoneNeg := false, zoneHour := 0, zoneMin := 0 }

/-- The ten records the well-formed lines of `inp13` denote, in insertion
order, for user "usr" on host "hst". -/
def rows13 : HistoryDB :=
  [ { user := "usr", host := "hst", command := "cmd1", datetime := tsMar 1 },
    { user := "usr", host := "hst", command := "cmd2", datetime := tsMar 2 },
    { user := "usr", host := "hst", command := "cmd3", datetime := tsMar 3 },
    { user := "usr", host := "hst", command := "cmd4", datetime := tsMar 4 },
    { user := "usr", host := "hst", command := "cmd5", datetime := tsMar 5 },
    { user := "usr", host := "hst", command := "cmd6", datetime := tsMar 6 },
    { user := "usr", host := "hst", command := "cmd7", datetime := tsMar 7 },
    { user := "usr", host := "hst", command := "cmd8", datetime := tsMar 8 },
    { user := "usr", host := "hst", command := "cmd9", datetime := tsMar 9 },
    { user := "usr", host := "hst", command := "cmd10", datetime := tsMar 10 } ]

/-- Two well-formed lines denoting the same record: same command and same
timestamp, differing only in the discarded line number. -/
def inpDup : List Char :=
  ("  1  2015-03-01T10:00:01+0000 ls\n  2  2015-03-01T10:00:01+0000 ls\n").data

/-- The single record both lines of `inpDup` denote. -/
def rowLs : HistoryRow :=
  { user := "u", host := "h", command := "ls", datetime := tsMar 1 }

/-- Two well-formed lines denoting two distinct records. -/
def inp2 : List Char :=
  ("  1  2015-03-01T10:00:01+0000 ls\n  2  2015-03-01T10:00:02+0000 pwd\n").data

/-- A well-formed line followed by a line that matches the structural pattern
but whose timestamp field (month and day zero) fails to parse. -/
def inpBad : List Char :=
  ("  1  2015-03-01T10:00:01+0000 ls\n  2  0000-00-00T00:00:00+0000 boom\n").data

/-- One newline-terminated well-formed line. -/
def pre1 : List Char := ("  1  2015-03-01T10:00:01+0000 ls\n").data

/-- An unterminated trailing fragment (no newline). -/
def frag1 : List Char := ("  2  2015-03-01T10:00").data

/-- A version-1 store with two connection-log rows (and no `connections`
view, as version 1 predates it). -/
def storeV1 : Store :=
  { version := some "1", connlog := [("t1", "10.0.0.1"), ("t2", "10.0.0.2")],
    rlookup := [], viewJoin := none }

/-- An already-current store. -/
def storeV2 : Store :=
  { version := some "2", connlog := [("t1", "10.0.0.1")],
    rlookup := [("10.0.0.1", "a.example")], viewJoin := some JoinKind.inner }

/-- A store whose version record is neither "1" nor "2". -/
def storeV9 : Store :=
  { version := some "9", connlog := [], rlookup := [], viewJoin := none }

/-- A concrete message used to instantiate the codec round trip. -/
def mDemo : Message :=
  { type := HISTORY, payload := "echo hi\n".data, user := "alice",
    hostname := "host1", qParams := qpZero }

/-- A successfully decoded reply whose type is not RESULT. -/
def replyNonResult : Message :=
  { type := HISTORY, payload := [], user := "u", hostname := "h", qParams := qpZero }

/-- The STATS request a client sends (payload and query parameters zero). -/
def statsRequest : Message :=
  { type := STATS, payload := [], user := "u", hostname := "h", qParams := qpZero }

/-- A well-formed history line: it matches the pattern and its timestamp
field parses. -/
def lineOK (l : List Char) : Bool :=
  match parseLine l with
  | none => false
  | some (ts, _) => (timeParse ts).isSome

/-- The record a line denotes for a given user and host, when it is
well formed. -/
def rowOf (u h : String) (l : List Char) : Option HistoryRow :=
  match parseLine l with
  | none => none
  | some (ts, cmd) =>
    (timeParse ts).map (fun t =>
      { user := u, host := h, command := String.mk (trimSuffixNL cmd), datetime := t })

/-! ## Helper lemmas on the read loop -/

/-- A read that hits end of input: the stream has no newline-terminated line
and the returned (discarded) data is the whole remainder. -/
theorem readLine_none_splitNL (s : List Char) (l : List Char)
    (hr : readLine s = (l, none)) : splitNL s = ([], s) ∧ l = s := by
  induction s generalizing l with
  | nil =>
    simp only [readLine] at hr
    exact ⟨rfl, (Prod.mk.injEq _ _ _ _ ▸ hr).1.symm⟩
  | cons c s ih =>
    by_cases hc : c = '\n'
    · simp only [readLine, if_pos hc] at hr
      exact absurd hr (by simp)
    · simp only [readLine, if_neg hc] at hr
      obtain ⟨h1, h2⟩ := Prod.mk.injEq _ _ _ _ ▸ hr
      obtain ⟨hs, hl⟩ := ih (l := (readLine s).1) (by rw [← h2])
      constructor
      · simp only [splitNL, if_neg hc, hs]
      · rw [← h1, hl]

/-- A read that found a newline: the line read is the first newline-terminated
line of the stream, and the rest is strictly shorter than the stream. -/
theorem readLine_some_splitNL (s : List Char) (l r : List Char)
    (hr : readLine s = (l, some r)) :
    splitNL s = (l :: (splitNL r).1, (splitNL r).2)
      ∧ s.length = l.length + r.length ∧ l ≠ [] := by
  induction s generalizing l r with
  | nil => simp [readLine] at hr
  | cons c s ih =>
    by_cases hc : c = '\n'
    · simp only [readLine, if_pos hc] at hr
      obtain ⟨h1, h2⟩ := Prod.mk.injEq _ _ _ _ ▸ hr
      injection h2 with h2
      subst hc h2
      refine ⟨?_, ?_, ?_⟩
      · rw [← h1]; simp [splitNL]
      · rw [← h1]; simp; omega
      · rw [← h1]; simp
    · simp only [readLine, if_neg hc] at hr
      obtain ⟨h1, h2⟩ := Prod.mk.injEq _ _ _ _ ▸ hr
      obtain ⟨hs, hlen, hne⟩ := ih (l := (readLine s).1) (r := r) (by rw [← h2])
      refine ⟨?_, ?_, ?_⟩
      · simp only [splitNL, if_neg hc, hs]
        rw [← h1]
      · rw [← h1]; simp [hlen]; omega
      · rw [← h1]; simp

/-- Bridge: with fuel exceeding the input length, the read loop processes
exactly the newline-terminated lines of the input, in order, and discards the
trailing fragment. -/
theorem addLoop_eq_processLines (u h : String) :
    ∀ fuel s db total failed, s.length < fuel →
      addLoop u h fuel s db total failed = processLines u h (linesOf s) db total failed := by
  intro fuel
  induction fuel with
  | zero => intro s db total failed hs; omega
  | succ fuel ih =>
    intro s db total failed hs
    rcases hr : readLine s with ⟨l, o⟩
    cases o with
    | none =>
      obtain ⟨hsplit, -⟩ := readLine_none_splitNL s l hr
      simp only [addLoop, hr, linesOf, hsplit, processLines]
    | some rest =>
      obtain ⟨hsplit, hlen, hne⟩ := readLine_some_splitNL s l rest hr
      have hlpos : 0 < l.length := List.length_pos.mpr hne
      simp only [addLoop, hr, linesOf, hsplit, processLines]
      rcases hstep : lineStep u h db failed l with e | ⟨db2, f2⟩
      · rfl
      · exact ih rest db2 (total + 1) f2 (by omega)

/-- AddFromBuffer, rewritten over the lines of its input. -/
theorem AddFromBuffer_eq (db : HistoryDB) (input : List Char) (u h : String) :
    AddFromBuffer db input u h =
      match processLines u h (linesOf input) db 0 0 with
      | Except.error e => (Except.error e, db)
      | Except.ok (db2, total, failed) => (Except.ok (statsString (total - 1) failed), db2) := by
  unfold AddFromBuffer
  rw [addLoop_eq_processLines u h (input.length + 1) input db 0 0 (by omega)]

/-- On a successful run the final `total` counts every line plus the final
end-of-input read. -/
theorem processLines_total (u h : String) :
    ∀ ls db t f db2 t2 f2, processLines u h ls db t f = Except.ok (db2, t2, f2) →
      t2 = t + ls.length + 1 := by
  intro ls
  induction ls with
  | nil =>
    intro db t f db2 t2 f2 hp
    simp only [processLines] at hp
    injection hp with hp
    injection hp with h1 hp2
    injection hp2 with h2 h3
    simp [← h2]
  | cons l ls ih =>
    intro db t f db2 t2 f2 hp
    simp only [processLines] at hp
    rcases hstep : lineStep u h db f l with e | ⟨dbm, fm⟩ <;> rw [hstep] at hp
    · cases hp
    · have := ih dbm (t + 1) fm db2 t2 f2 hp
      simp [this, List.length_cons]
      omega


/-- A well-formed line steps by inserting its record (or counting it failed
when the record's key is already present). -/
theorem lineStep_of_rowOf (u h : String) (l : List Char) (r : HistoryRow)
    (hr : rowOf u h l = some r) (db : HistoryDB) (failed : Nat) :
    lineStep u h db failed l =
      Except.ok ((insertRow db r).1, if (insertRow db r).2 then failed + 1 else failed) := by
  unfold rowOf at hr
  rcases hp : parseLine l with - | ⟨ts, cmd⟩
  · simp only [hp] at hr
    cases hr
  · simp only [hp] at hr
    rcases ht : timeParse ts with - | t
    · simp only [ht, Option.map_none'] at hr
      cases hr
    · simp only [ht, Option.map_some'] at hr
      injection hr with hr
      simp only [lineStep, hp, ht]
      rw [hr]

/-- A well-formed line denotes a record. -/
theorem rowOf_of_lineOK (u h : String) (l : List Char) (hl : lineOK l = true) :
    ∃ r, rowOf u h l = some r := by
  unfold lineOK at hl
  rcases hp : parseLine l with - | ⟨ts, cmd⟩
  · simp only [hp] at hl
    cases hl
  · simp only [hp] at hl
    rcases ht : timeParse ts with - | t
    · simp only [ht, Option.isSome_none] at hl
      cases hl
    · exact ⟨{ user := u, host := h, command := String.mk (trimSuffixNL cmd), datetime := t },
        by simp only [rowOf, hp, ht, Option.map_some']⟩

/-- Running the loop over well-formed lines succeeds, counts every line,
appends exactly the non-duplicate records, and afterwards every line's record
is present (either it was inserted or an equal key was already there). -/
theorem processLines_run (u h : String) :
    ∀ ls db t f, (∀ l ∈ ls, lineOK l = true) →
      ∃ ext fd,
        processLines u h ls db t f = Except.ok (db ++ ext, t + ls.length + 1, f + fd) ∧
        ext.length + fd = ls.length ∧
        ∀ l ∈ ls, ∃ r, rowOf u h l = some r ∧ ∃ x ∈ db ++ ext, samePK x r := by
  intro ls
  induction ls with
  | nil =>
    intro db t f _
    exact ⟨[], 0, by simp [processLines], by simp, by simp⟩
  | cons l ls ih =>
    intro db t f hwf
    obtain ⟨r, hr⟩ := rowOf_of_lineOK u h l (hwf l (List.mem_cons_self l ls))
    have hstep := lineStep_of_rowOf u h l r hr db f
    have hwftail : ∀ l2 ∈ ls, lineOK l2 = true := fun l2 hl2 => hwf l2 (List.mem_cons_of_mem _ hl2)
    by_cases hdup : ∃ x ∈ db, samePK x r
    · have hins : insertRow db r = (db, true) := by rw [insertRow, if_pos hdup]
      rw [hins] at hstep
      simp at hstep
      obtain ⟨ext, fd, hrun, hcnt, hmem⟩ := ih db (t + 1) (f + 1) hwftail
      refine ⟨ext, fd + 1, ?_, ?_, ?_⟩
      · simp only [processLines, hstep]
        rw [hrun]
        simp only [Except.ok.injEq, Prod.mk.injEq, List.length_cons, eq_self_iff_true,
          true_and, and_true]
        omega
      · simp only [List.length_cons]; omega
      · intro l2 hl2
        rcases List.mem_cons.mp hl2 with heq | hmem2
        · subst heq
          obtain ⟨x, hx, hpk⟩ := hdup
          exact ⟨r, hr, x, List.mem_append.mpr (Or.inl hx), hpk⟩
        · exact hmem l2 hmem2
    · have hins : insertRow db r = (db ++ [r], false) := by rw [insertRow, if_neg hdup]
      rw [hins] at hstep
      simp at hstep
      obtain ⟨ext, fd, hrun, hcnt, hmem⟩ := ih (db ++ [r]) (t + 1) f hwftail
      refine ⟨r :: ext, fd, ?_, ?_, ?_⟩
      · simp only [processLines, hstep]
        rw [hrun]
        simp only [Except.ok.injEq, Prod.mk.injEq, List.length_cons, List.append_assoc,
          List.singleton_append, eq_self_iff_true, true_and, and_true]
        omega
      · simp only [List.length_cons]; omega
      · intro l2 hl2
        rcases List.mem_cons.mp hl2 with heq | hmem2
        · subst heq
          exact ⟨r, hr, r, by simp, ⟨rfl, rfl, rfl⟩⟩
        · obtain ⟨r2, hr2, x, hx, hpk⟩ := hmem l2 hmem2
          refine ⟨r2, hr2, x, ?_, hpk⟩
          rw [List.append_assoc, List.singleton_append] at hx
          exact hx

/-- Re-running the loop over well-formed lines whose records are all already
present succeeds, leaves the table exactly as it was, and counts every line
as failed: the duplicate-key conflicts are tolerated, not errors, and they
roll nothing back. -/
theorem processLines_all_dup (u h : String) :
    ∀ ls db t f,
      (∀ l ∈ ls, ∃ r, rowOf u h l = some r ∧ ∃ x ∈ db, samePK x r) →
      processLines u h ls db t f = Except.ok (db, t + ls.length + 1, f + ls.length) := by
  intro ls
  induction ls with
  | nil => intro db t f _; simp [processLines]
  | cons l ls ih =>
    intro db t f hdup
    obtain ⟨r, hr, hx⟩ := hdup l (List.mem_cons_self l ls)
    have hstep := lineStep_of_rowOf u h l r hr db f
    have hins : insertRow db r = (db, true) := by rw [insertRow, if_pos hx]
    rw [hins] at hstep
    simp at hstep
    simp only [processLines, hstep]
    rw [ih db (t + 1) (f + 1) (fun l2 hl2 => hdup l2 (List.mem_cons_of_mem _ hl2))]
    simp only [Except.ok.injEq, Prod.mk.injEq, List.length_cons, eq_self_iff_true,
      true_and, and_true]
    omega

/-- If any line matches the pattern but its timestamp field does not parse,
the whole loop aborts with an error (no earlier line can make it exit
successfully first). -/
theorem processLines_abort (u h : String) :
    ∀ ls db t f,
      (∃ l ∈ ls, (parseLine l).isSome = true ∧ lineOK l = false) →
      ∃ e, processLines u h ls db t f = Except.error e := by
  intro ls
  induction ls with
  | nil => intro db t f hbad; simp at hbad
  | cons l ls ih =>
    intro db t f hbad
    obtain ⟨l0, hl0, hsome, hnotok⟩ := hbad
    rcases List.mem_cons.mp hl0 with heq | hmem
    · subst heq
      rcases hp : parseLine l0 with - | ⟨ts, cmd⟩
      · rw [hp] at hsome; cases hsome
      · have ht : timeParse ts = none := by
          unfold lineOK at hnotok
          simp only [hp] at hnotok
          rcases htp : timeParse ts with - | tv
          · rfl
          · rw [htp] at hnotok
            simp at hnotok
        exact ⟨"parsing time " ++ String.mk ts, by simp only [processLines, lineStep, hp, ht]⟩
    · rcases hstep : lineStep u h db f l with e | ⟨db2, f2⟩
      · exact ⟨e, by simp only [processLines, hstep]⟩
      · obtain ⟨e, he⟩ := ih db2 (t + 1) f2 ⟨l0, hmem, hsome, hnotok⟩
        exact ⟨e, by simp only [processLines, hstep]; exact he⟩

/-- A stream with no newline is all trailing fragment. -/
theorem splitNL_no_newline (s : List Char) (hs : ∀ c ∈ s, c ≠ '\n') :
    splitNL s = ([], s) := by
  induction s with
  | nil => rfl
  | cons c s ih =>
    have hc : c ≠ '\n' := hs c (List.mem_cons_self c s)
    have ihs := ih (fun c2 hc2 => hs c2 (List.mem_cons_of_mem _ hc2))
    simp only [splitNL, if_neg hc, ihs]

/-- Appending newline-free bytes only grows the trailing fragment: the
newline-terminated lines are unchanged. -/
theorem splitNL_append_fragment (pre frag : List Char) (hfr : ∀ c ∈ frag, c ≠ '\n') :
    splitNL (pre ++ frag) = ((splitNL pre).1, (splitNL pre).2 ++ frag) := by
  induction pre with
  | nil => simp [splitNL_no_newline frag hfr, splitNL]
  | cons c pre ih =>
    rw [List.cons_append]
    by_cases hc : c = '\n'
    · simp only [splitNL, if_pos hc]
      rw [ih]
    · simp only [splitNL, if_neg hc]
      rw [ih]
      rcases hsp : (splitNL pre).1 with - | ⟨l, ls2⟩ <;> simp [hsp]

/-- The number of newline-terminated lines is the number of newlines. -/
theorem linesOf_length (s : List Char) : (linesOf s).length = countNL s := by
  unfold linesOf
  induction s with
  | nil => rfl
  | cons c s ih =>
    by_cases hc : c = '\n'
    · simp only [splitNL, if_pos hc, countNL, List.length_cons, hc, if_true, ih]
      omega
    · simp only [splitNL, if_neg hc, countNL, if_neg hc, ih]
      rcases hsp : (splitNL s).1 with - | ⟨l, ls2⟩
      · rw [hsp] at ih
        simp only [List.length_nil] at ih ⊢
        omega
      · rw [hsp] at ih
        simp only [List.length_cons] at ih ⊢
        omega

/-- Unfolding of the inner-join view on a cons cell. -/
theorem innerJoinView_cons (c : ConnRow) (cl rl : List ConnRow) :
    innerJoinView (c :: cl) rl = matchesFor rl c ++ innerJoinView cl rl := by
  simp [innerJoinView]

/-- Unfolding of the left-join view on a cons cell. -/
theorem leftJoinView_cons (c : ConnRow) (cl rl : List ConnRow) :
    leftJoinView (c :: cl) rl =
      (if (matchesFor rl c).isEmpty then [(c.1, c.2, none)] else matchesFor rl c)
        ++ leftJoinView cl rl := by
  simp [leftJoinView]

/-- With an empty `rlookup`, the left-join view is the connection log with a
NULL reverse column. -/
theorem leftJoinView_nil (cl : List ConnRow) :
    leftJoinView cl [] = cl.map (fun c => (c.1, c.2, (none : Option String))) := by
  induction cl with
  | nil => rfl
  | cons c cl ih =>
    rw [leftJoinView_cons, ih]
    rfl

/-! ## Claim theorems -/

/-- C1: for every Message m and key k, decoding the wire bytes produced by
encoding m under k yields exactly m. The gob codecs and the saltsecret cipher
are the external collaborators the spec treats as opaque; each enters as a
parameter together with its round-trip contract at the point of use, and the
theorem shows `receiveDecrypt` inverts `encryptDispatch` layer by layer. -/
theorem encryptDispatch_receiveDecrypt_roundtrip
    (gobEncodeMsg : Message → List Nat) (encrypt : List Nat → List Nat → List Nat)
    (gobEncodeBytes : List Nat → List Nat)
    (gobDecodeBytes : List Nat → Option (List Nat))
    (decrypt : List Nat → List Nat → Option (List Nat))
    (gobDecodeMsg : List Nat → Option Message)
    (key : List Nat) (m : Message)
    (houter : gobDecodeBytes (gobEncodeBytes (encrypt key (gobEncodeMsg m)))
      = some (encrypt key (gobEncodeMsg m)))
    (hcipher : decrypt key (encrypt key (gobEncodeMsg m)) = some (gobEncodeMsg m))
    (hinner : gobDecodeMsg (gobEncodeMsg m) = some m) :
    receiveDecrypt gobDecodeBytes decrypt gobDecodeMsg key
      (encryptDispatch gobEncodeMsg encrypt gobEncodeBytes key m) = some m := by
  simp only [encryptDispatch, receiveDecrypt, houter, hcipher, hinner]

/-- Witness for C1 at a concrete message and concrete codec layers. -/
theorem encryptDispatch_receiveDecrypt_roundtrip_witness :
    receiveDecrypt (fun b => some b) (fun _ b => some b) (fun _ => some mDemo) []
      (encryptDispatch (fun _ => []) (fun _ b => b) (fun b => b) [] mDemo) = some mDemo :=
  encryptDispatch_receiveDecrypt_roundtrip (fun _ => []) (fun _ b => b) (fun b => b)
    (fun b => some b) (fun _ b => some b) (fun _ => some mDemo) [] mDemo rfl rfl rfl

/-- C2: the STATS arm of handleConn computes the top-20/last-10 concatenation
but assigns it to a shadowing local variable, so the RESULT reply carries an
empty payload even though the intended concatenation is non-empty. Evaluated
at a concrete STATS message over a query surface returning non-empty text. -/
theorem handleConn_stats_reply_is_empty :
    handleConn opsDemo [] (Except.ok statsRequest)
      = (some { type := RESULT, payload := [], user := "", hostname := "",
                qParams := qpZero }, []) ∧
    statsReplyIntended opsDemo
      = ("Top-20 commands:\n42: ls\n\nLast 10 commands:\n2015-03-01 ls").data := by
  exact ⟨rfl, rfl⟩

/-- C3 (counterexample): a well-formed history whose two lines denote the
same record. The first import of it into an empty store inserts 1 row
(failed 1 of 2); re-importing reports failed = 2, not the 1 row the first run
inserted. So the second run's failed count is not, in general, the number of
lines the first run inserted. -/
theorem AddFromBuffer_reimport_counterexample :
    AddFromBuffer [] inpDup "u" "h" = (Except.ok (statsString 2 1), [rowLs]) ∧
    AddFromBuffer [rowLs] inpDup "u" "h" = (Except.ok (statsString 2 2), [rowLs]) ∧
    statsString 2 2 ≠ statsString 2 1 := by
  refine ⟨rfl, rfl, by decide⟩

/-- C3 (amended): importing the same well-formed text twice commits both
runs; the second run leaves the table exactly as the first left it (zero net
new rows), counts every line as failed, and returns a stats summary, not an
error — duplicate key conflicts are tolerated and roll nothing back. The
first run's failed count f1 satisfies rows-inserted = lines − f1, so when the
first run inserted every line (f1 = 0) the second run's failed count equals
the number of lines the first run inserted. -/
theorem AddFromBuffer_reimport (db0 : HistoryDB) (input : List Char) (u h : String)
    (hwf : ∀ l ∈ linesOf input, lineOK l = true) :
    ∃ f1 db1,
      AddFromBuffer db0 input u h
        = (Except.ok (statsString (linesOf input).length f1), db1) ∧
      f1 ≤ (linesOf input).length ∧
      db1.length + f1 = db0.length + (linesOf input).length ∧
      AddFromBuffer db1 input u h
        = (Except.ok (statsString (linesOf input).length (linesOf input).length), db1) := by
  obtain ⟨ext, fd, hrun, hcnt, hmem⟩ := processLines_run u h (linesOf input) db0 0 0 hwf
  have heq := AddFromBuffer_eq db0 input u h
  rw [hrun] at heq
  simp only [Nat.zero_add, Nat.add_sub_cancel] at heq
  have hrun2 := processLines_all_dup u h (linesOf input) (db0 ++ ext) 0 0 hmem
  have heq2 := AddFromBuffer_eq (db0 ++ ext) input u h
  rw [hrun2] at heq2
  simp only [Nat.zero_add, Nat.add_sub_cancel] at heq2
  refine ⟨fd, db0 ++ ext, heq, by omega, ?_, heq2⟩
  simp only [List.length_append]
  omega

/-- Witness for C3's amended theorem at a two-line input of distinct
records. -/
theorem AddFromBuffer_reimport_witness :
    ∃ f1 db1,
      AddFromBuffer [] inp2 "u" "h"
        = (Except.ok (statsString (linesOf inp2).length f1), db1) ∧
      f1 ≤ (linesOf inp2).length ∧
      db1.length + f1 = List.length ([] : HistoryDB) + (linesOf inp2).length ∧
      AddFromBuffer db1 inp2 "u" "h"
        = (Except.ok (statsString (linesOf inp2).length (linesOf inp2).length), db1) :=
  AddFromBuffer_reimport [] inp2 "u" "h" (by decide)

/-- C4: when some line of the input matches the structural pattern but its
timestamp field does not parse, AddFromBuffer aborts: it returns an error
(no stats summary) and the transaction rolls back, leaving the history table
exactly as it was — no record from any line of that input is persisted. -/
theorem AddFromBuffer_aborts_on_timestamp_violation (db : HistoryDB)
    (input : List Char) (u h : String)
    (hbad : ∃ l ∈ linesOf input, (parseLine l).isSome = true ∧ lineOK l = false) :
    ∃ e, AddFromBuffer db input u h = (Except.error e, db) := by
  obtain ⟨e, he⟩ := processLines_abort u h (linesOf input) db 0 0 hbad
  refine ⟨e, ?_⟩
  rw [AddFromBuffer_eq, he]

/-- Witness for C4: a good line followed by a pattern-matching line whose
timestamp has month and day zero; nothing is persisted. -/
theorem AddFromBuffer_aborts_on_timestamp_violation_witness :
    ∃ e, AddFromBuffer [] inpBad "u" "h" = (Except.error e, []) :=
  AddFromBuffer_aborts_on_timestamp_violation [] inpBad "u" "h" (by decide)

set_option maxRecDepth 4000 in
/-- C5: importing 10 well-formed lines and 3 non-matching lines into an empty
store commits the 10 records and reports total 13, successful 10, failed 3;
the non-matching lines are skipped, never aborting the import. -/
theorem AddFromBuffer_mixed_import :
    AddFromBuffer [] inp13 "usr" "hst"
      = (Except.ok "Processed 13 entries, successful 10, failed 3.", rows13) := by
  rfl

/-- C6: migrate on a version-1 store with N connection-log rows produces (in
one all-or-nothing step) a store whose recorded version is the current
VERSION and whose `connections` view yields the same N rows with NULL
reverse-lookup values; migrate on an already-current store returns it
unchanged; any other recorded version yields an error and no change. -/
theorem migrate_versioned_behavior (s : Store) :
    (s.version = some "1" →
      ∃ s2, migrate s = Except.ok s2 ∧ s2.version = some VERSION ∧
        connectionsView s2 = s.connlog.map (fun c => (c.1, c.2, (none : Option String))) ∧
        (connectionsView s2).length = s.connlog.length) ∧
    (s.version = some VERSION → migrate s = Except.ok s) ∧
    (∀ v, s.version = some v → v ≠ "1" → v ≠ VERSION →
      migrate s
        = Except.error "Database version different than code version but couldn't fix it.") := by
  refine ⟨?_, ?_, ?_⟩
  · intro h1
    refine ⟨{ version := some VERSION, connlog := s.connlog, rlookup := [],
              viewJoin := some JoinKind.left }, ?_, rfl, ?_, ?_⟩
    · unfold migrate
      rw [h1]
      simp
    · show leftJoinView s.connlog [] = _
      exact leftJoinView_nil s.connlog
    · show (leftJoinView s.connlog []).length = _
      rw [leftJoinView_nil s.connlog, List.length_map]
  · intro h2
    unfold migrate
    rw [h2]
    simp [VERSION]
  · intro v hv h1 h2
    simp only [VERSION] at h2
    unfold migrate
    rw [hv]
    simp [h1, h2, VERSION]

/-- Witness for C6 at three concrete stores: version "1" with two
connection-log rows, the current version, and version "9". -/
theorem migrate_versioned_behavior_witness :
    (∃ s2, migrate storeV1 = Except.ok s2 ∧ s2.version = some VERSION ∧
      connectionsView s2
        = storeV1.connlog.map (fun c => (c.1, c.2, (none : Option String))) ∧
      (connectionsView s2).length = storeV1.connlog.length) ∧
    migrate storeV2 = Except.ok storeV2 ∧
    migrate storeV9
      = Except.error "Database version different than code version but couldn't fix it." :=
  ⟨(migrate_versioned_behavior storeV1).1 rfl,
   (migrate_versioned_behavior storeV2).2.1 rfl,
   (migrate_versioned_behavior storeV9).2.2 "9" rfl (by decide) (by decide)⟩

/-- C7 (counterexample): a successfully decoded reply of type HISTORY (not
RESULT) makes the session complete with the nil error — the outcome is
`Except.ok` with nothing rendered, not an error, refuting the claim that
ClientMode returns a non-nil error for non-RESULT replies. -/
theorem clientMode_nonresult_reply_silent_success :
    clientReplyOutcome (Except.ok replyNonResult) = Except.ok none := rfl

/-- C7 (amended): a reply that decodes successfully but is not of type RESULT
is silently ignored — ClientMode renders nothing and returns the nil error,
completing as a success; only a transport/decode failure becomes the
session's error outcome. -/
theorem clientReplyOutcome_nonresult_no_error (m : Message) (e : String)
    (hm : m.type ≠ RESULT) :
    clientReplyOutcome (Except.ok m) = Except.ok none ∧
    clientReplyOutcome (Except.error e) = Except.error e := by
  constructor
  · simp [clientReplyOutcome, clientReplyRender, hm]
  · rfl

/-- Witness for C7's amended theorem at a HISTORY-typed reply. -/
theorem clientReplyOutcome_nonresult_no_error_witness :
    clientReplyOutcome (Except.ok replyNonResult) = Except.ok none ∧
    clientReplyOutcome (Except.error "receive failed") = Except.error "receive failed" :=
  clientReplyOutcome_nonresult_no_error replyNonResult "receive failed" (by decide)

/-- C8: when receiveDecrypt fails on an accepted connection, handleConn sends
nothing: the reply component is `none` (encryptDispatch is never reached) and
the store is untouched; the connection is then closed by the deferred close.
This holds for every query surface, store state and receive error. -/
theorem handleConn_silent_on_receive_error (ops : QueryOps) (db : HistoryDB) (e : String) :
    handleConn ops db (Except.error e) = (none, db) := rfl

/-- C9 (counterexample): the two `connections` views do not denote the same
query: on a store with one connlog row and an empty rlookup, the initDB
(inner join) view is empty while the migrate (left join) view returns the row
with a NULL reverse. -/
theorem connections_views_differ :
    innerJoinView [("t1", "10.0.0.1")] [] = [] ∧
    leftJoinView [("t1", "10.0.0.1")] [] = [("t1", "10.0.0.1", none)] := by
  exact ⟨rfl, rfl⟩

/-- C9 (amended): the initDB inner-join view and the migrate left-join view
agree exactly when every connlog row's remote address has a matching rlookup
entry; a connlog row without one is returned (with NULL reverse) only by the
migrated store's view. -/
theorem connections_views_agree_when_matched (cl rl : List ConnRow)
    (hm : ∀ c ∈ cl, ∃ r ∈ rl, r.1 = c.2) :
    innerJoinView cl rl = leftJoinView cl rl := by
  induction cl with
  | nil => rfl
  | cons c cl ih =>
    obtain ⟨r, hr, hip⟩ := hm c (List.mem_cons_self c cl)
    have hmm : (c.1, c.2, some r.2) ∈ matchesFor rl c := by
      unfold matchesFor
      exact List.mem_map_of_mem _ (List.mem_filter.mpr ⟨hr, by simp [hip]⟩)
    have hne : (matchesFor rl c).isEmpty = false := by
      rcases hmf : matchesFor rl c with - | ⟨a, l⟩
      · rw [hmf] at hmm; cases hmm
      · rfl
    rw [innerJoinView_cons, leftJoinView_cons, hne,
      ih (fun c2 hc2 => hm c2 (List.mem_cons_of_mem _ hc2))]
    simp

/-- Witness for C9's amended theorem on a matched store. -/
theorem connections_views_agree_when_matched_witness :
    innerJoinView [("t1", "10.0.0.1")] [("10.0.0.1", "a.example")]
      = leftJoinView [("t1", "10.0.0.1")] [("10.0.0.1", "a.example")] :=
  connections_views_agree_when_matched [("t1", "10.0.0.1")] [("10.0.0.1", "a.example")]
    (by decide)

/-- C10: a trailing line not terminated by a newline is silently discarded:
appending newline-free bytes to any input leaves AddFromBuffer's entire
result (stats and table) unchanged, and the total reported by a successful run
of the import equals the number of newline-terminated lines of the input. -/
theorem AddFromBuffer_discards_trailing_fragment (db : HistoryDB) (u h : String)
    (pre frag : List Char) (hfr : ∀ c ∈ frag, c ≠ '\n') :
    AddFromBuffer db (pre ++ frag) u h = AddFromBuffer db pre u h ∧
    ∀ res db2, AddFromBuffer db (pre ++ frag) u h = (Except.ok res, db2) →
      ∃ f2, res = statsString (countNL (pre ++ frag)) f2 := by
  have hlines : linesOf (pre ++ frag) = linesOf pre := by
    unfold linesOf
    rw [splitNL_append_fragment pre frag hfr]
  constructor
  · rw [AddFromBuffer_eq, AddFromBuffer_eq, hlines]
  · intro res db2 hok
    rw [AddFromBuffer_eq] at hok
    rcases hpl : processLines u h (linesOf (pre ++ frag)) db 0 0 with e | ⟨db3, t3, f3⟩ <;>
      rw [hpl] at hok
    · simp at hok
    · simp at hok
      have ht3 := processLines_total u h (linesOf (pre ++ frag)) db 0 0 db3 t3 f3 hpl
      refine ⟨f3, ?_⟩
      rw [← hok.1]
      have hcount : t3 - 1 = countNL (pre ++ frag) := by
        rw [← linesOf_length]
        omega
      rw [hcount]

/-- Witness for C10: one terminated line followed by an unterminated
fragment. -/
theorem AddFromBuffer_discards_trailing_fragment_witness :
    AddFromBuffer [] (pre1 ++ frag1) "u" "h" = AddFromBuffer [] pre1 "u" "h" ∧
    ∀ res db2, AddFromBuffer [] (pre1 ++ frag1) "u" "h" = (Except.ok res, db2) →
      ∃ f2, res = statsString (countNL (pre1 ++ frag1)) f2 :=
  AddFromBuffer_discards_trailing_fragment [] "u" "h" pre1 frag1 (by decide)
